import Mathlib

/-!
# Verification of `export_model.py` (SB3toSFunction)

A shallow embedding of the single-file export script
`export_model.py`, which converts a Stable Baselines3 reinforcement
learning checkpoint into a traced, frozen, optimized TorchScript module
plus a sidecar JSON metadata file.

Modelling conventions:
* 2-D tensors are `List (List ℚ)` (rationals stand in for floats; only
  shapes and order comparisons matter for the verified properties).
* The wrapped libraries (SB3 loaders, the RNG behind `th.randn`) are an
  explicit environment `Env`; loading may fail (`Except`), mirroring
  Python exceptions.
* Tracing / freezing / optimizing preserve the wrapped module's
  semantics, so the traced module is the wrapper function itself; the
  pipeline records an event trace (`Event`) covering pipeline steps,
  file reads/writes and stdout prints, so that ordering and I/O-surface
  properties can be stated.
-/

set_option maxHeartbeats 1000000

abbrev Tensor2 := List (List ℚ)

/-- The `torch` shape of a 2-D tensor: `[rows, cols]` (cols read off the
first row, matching a rectangular tensor). -/
def shape2 (t : Tensor2) : List Nat :=
  [t.length, (t.head?.getD []).length]

/-- `t` is a rectangular `r × c` tensor. -/
def isShape (t : Tensor2) (r c : Nat) : Prop :=
  t.length = r ∧ ∀ row ∈ t, row.length = c

/-- `int(np.prod(shape))`: product of the entries, 1 on the empty list. -/
def prodList (l : List Nat) : Nat := l.foldl (fun a b => a * b) 1

/-! ## String and path helpers (Python `in`, `pathlib`) -/

/-- `startsWithL needle hay`: `hay` begins with `needle`. -/
def startsWithL : List Char → List Char → Bool
  | [], _ => true
  | _ :: _, [] => false
  | a :: as, b :: bs => a == b && startsWithL as bs

/-- Python's `needle in hay` substring test on strings (as char lists). -/
def containsSub : List Char → List Char → Bool
  | [], needle => needle.isEmpty
  | c :: t, needle => startsWithL needle (c :: t) || containsSub t needle

/-- Python's `str.upper()`: uppercase each character (an executable
model of `String.toUpper`). -/
def strToUpper (s : String) : String := String.mk (s.toList.map Char.toUpper)

/-- `a` occurs as a substring of the uppercased string `s`. -/
def occursIn (a : String) (s : String) : Prop :=
  ∃ pre post, (strToUpper s).toList = pre ++ a.toList ++ post

/-- `Path(p).name` as char list: everything after the last `/`. -/
def nameOf (p : List Char) : List Char :=
  (p.reverse.takeWhile (fun c => c != '/')).reverse

/-- The directory part of `p` including the trailing `/`. -/
def dirChars (p : List Char) : List Char :=
  p.take (p.length - (nameOf p).length)

/-- Index of the last `.` in a file name that separates a (nonempty)
stem from a nonempty extension, per `pathlib` suffix rules. -/
def suffixSplitIdx (name : List Char) : Option Nat :=
  ((List.range name.length).filter
    (fun i => (name.getD i ' ') == '.' && decide (0 < i) && decide (i < name.length - 1))).getLast?

/-- `Path(p).with_suffix('.json')`: replace the extension of the final
path component by `.json` (append when there is none). -/
def with_suffix_json (p : String) : String :=
  let cs := p.toList
  let nm := nameOf cs
  let stem := match suffixSplitIdx nm with
    | some i => nm.take i
    | none => nm
  String.mk (dirChars cs ++ stem) ++ ".json"

/-- `Path(p).name`. -/
def baseName (p : String) : String := String.mk (nameOf p.toList)

/-- `Path(p).parent` (as a string): the directory part, `.` if none. -/
def parentDir (p : String) : String :=
  let d := dirChars p.toList
  if d.isEmpty then "." else if d == ['/'] then "/" else String.mk d.dropLast

/-! ## `torch.argmax(·, dim=1)` on one row -/

/-- Maximum of a list (0 on the empty list, which never arises). -/
def listMax : List ℚ → ℚ
  | [] => 0
  | x :: t => t.foldl max x

/-- Index of the first occurrence of `a` (length of the list if absent). -/
def firstIdxOf (a : ℚ) : List ℚ → Nat
  | [] => 0
  | x :: t => if x = a then 0 else firstIdxOf a t + 1

/-- `torch.argmax(row)`: index of the first maximal entry. -/
def argmaxIdx (row : List ℚ) : Nat := firstIdxOf (listMax row) row

/-! ## Data model: spaces, policies, models -/

/-- An action space as the script observes it: either it has a `.shape`
attribute (Box-like), or only `.n` (Discrete), or neither. -/
inductive ActionSpace
  | box (shape : List Nat)
  | discrete (n : Nat)
  | unsupported
deriving DecidableEq, Repr

structure MlpExtractor where
  forward_actor : Tensor2 → Tensor2

/-- The duck-typed policy object: the script only touches the fields
below, each present on the policies of the algorithms that use them. -/
structure Policy where
  actor : Tensor2 → Bool → Tensor2
  extract_features : Tensor2 → (Tensor2 → Tensor2) → Tensor2
  features_extractor : Tensor2 → Tensor2
  share_features_extractor : Bool
  pi_features_extractor : Tensor2 → Tensor2
  mlp_extractor : MlpExtractor
  action_net : Tensor2 → Tensor2
  q_net : Tensor2 → Tensor2

/-- A loaded SB3 model, as the script observes it. -/
structure Model where
  class_name : String
  observation_space_shape : List Nat
  action_space : ActionSpace
  policy : Policy

/-! ## The three wrapper classes -/

structure OnnxableSACTD3Policy where
  actor : Tensor2 → Bool → Tensor2

/-- `OnnxableSACTD3Policy.forward`: `self.actor(observation, deterministic=True)`. -/
def OnnxableSACTD3Policy.forward (self : OnnxableSACTD3Policy) (observation : Tensor2) : Tensor2 :=
  self.actor observation true

structure OnnxablePPOA2CPolicy where
  policy : Policy

/-- `OnnxablePPOA2CPolicy.forward`: extract features, actor latent, mean action. -/
def OnnxablePPOA2CPolicy.forward (self : OnnxablePPOA2CPolicy) (observation : Tensor2) : Tensor2 :=
  let features := self.policy.extract_features observation self.policy.features_extractor
  let latent_pi :=
    if self.policy.share_features_extractor then
      self.policy.mlp_extractor.forward_actor features
    else
      self.policy.mlp_extractor.forward_actor (self.policy.pi_features_extractor observation)
  self.policy.action_net latent_pi

structure OnnxableDQNPolicy where
  q_net : Tensor2 → Tensor2

/-- `OnnxableDQNPolicy.forward`:
`th.argmax(self.q_net(observation), dim=1).float().unsqueeze(1)`. -/
def OnnxableDQNPolicy.forward (self : OnnxableDQNPolicy) (observation : Tensor2) : Tensor2 :=
  let q_values := self.q_net observation
  q_values.map (fun row => [((argmaxIdx row : ℕ) : ℚ)])

/-- The wrapper object returned by `create_exportable_policy`. -/
inductive ExportablePolicy
  | sacTd3 (w : OnnxableSACTD3Policy)
  | ppoA2c (w : OnnxablePPOA2CPolicy)
  | dqn (w : OnnxableDQNPolicy)

def ExportablePolicy.forward : ExportablePolicy → Tensor2 → Tensor2
  | .sacTd3 w, obs => w.forward obs
  | .ppoA2c w, obs => w.forward obs
  | .dqn w, obs => w.forward obs

/-! ## Algorithm detection and dimensions -/

/-- The `supported` list of `detect_algorithm`, equal to the key list of
`algo_classes` in `load_sb3_model` (same five names, same order). -/
def supported_algorithms : List String := ["SAC", "TD3", "PPO", "A2C", "DQN"]

/-- The `for algo in supported: if algo in class_name: return algo` loop. -/
def findFirstAlgo (cn : List Char) : List String → Option String
  | [] => none
  | a :: rest => if containsSub cn a.toList then some a else findFirstAlgo cn rest

/-- `detect_algorithm(model)`. -/
def detect_algorithm (m : Model) : Except String String :=
  let cn := (strToUpper m.class_name).toList
  match findFirstAlgo cn supported_algorithms with
  | some a => Except.ok a
  | none => Except.error ("Could not detect algorithm from class: " ++ m.class_name)

/-- `get_dimensions(model)`: observation shape and action shape. -/
def get_dimensions (m : Model) : Except String (List Nat × List Nat) :=
  match m.action_space with
  | .box s => Except.ok (m.observation_space_shape, s)
  | .discrete _ => Except.ok (m.observation_space_shape, [1])
  | .unsupported => Except.error "Unsupported action space type"

/-! ## Metadata, events, environment -/

/-- The `metadata` dictionary built by `export_to_torchscript` (field
order matches the Python dict literal). -/
structure Metadata where
  algorithm : String
  obs_dim : Nat
  act_dim : Nat
  obs_shape : List Nat
  act_shape : List Nat
  input_model : String
  output_model : String
deriving DecidableEq, Repr

/-- Contents of a written file: the TorchScript module, or the JSON
serialization of the metadata. -/
inductive FileData
  | torchModule
  | jsonData (md : Metadata)
deriving DecidableEq, Repr

/-- Observable events of one run: pipeline steps, file reads/writes and
stdout prints, in program order. -/
inductive Event
  | readFile (path : String)
  | loaded
  | detected (algo : String)
  | selected (algo : String)
  | traced (shape : List Nat)
  | froze
  | optimized
  | verified (shape : List Nat)
  | writeFile (path : String) (data : FileData)
  | stdoutMsg (msg : String)
deriving DecidableEq, Repr

/-- `if verbose: print(...)` blocks: a list of stdout events, emitted
only when the guard is true. -/
def vPrints (guard : Bool) (msgs : List String) : List Event :=
  if guard then msgs.map Event.stdoutMsg else []

/-- Python truthiness of an `Optional[str]`: `None` and `""` are falsy. -/
def optStrTruthy : Option String → Bool
  | some a => !a.isEmpty
  | none => false

/-- The external world: the SB3 loaders (`algo_classes[name].load(path)`,
which may raise) and the RNG entries behind `th.randn`. -/
structure Env where
  load : String → String → Except String Model
  randnVal : Nat → Nat → ℚ

/-- `th.randn(r, c)` drawn from the environment's RNG. -/
def Env.randn (env : Env) (r c : Nat) : Tensor2 :=
  (List.range r).map (fun i => (List.range c).map (fun j => env.randnVal i j))

/-! ## JSON rendering (`json.dumps`) -/

def jsonStr (s : String) : String := "\"" ++ s ++ "\""

def jsonNatList (l : List Nat) : String :=
  "[" ++ String.intercalate ", " (l.map toString) ++ "]"

/-- `json.dumps(metadata)` with default separators. -/
def jsonDump (md : Metadata) : String :=
  "\x7b" ++ "\"algorithm\": " ++ jsonStr md.algorithm
    ++ ", \"obs_dim\": " ++ toString md.obs_dim
    ++ ", \"act_dim\": " ++ toString md.act_dim
    ++ ", \"obs_shape\": " ++ jsonNatList md.obs_shape
    ++ ", \"act_shape\": " ++ jsonNatList md.act_shape
    ++ ", \"input_model\": " ++ jsonStr md.input_model
    ++ ", \"output_model\": " ++ jsonStr md.output_model
    ++ "\x7d"

def jsonNatListIndent (l : List Nat) : String :=
  if l.isEmpty then "[]"
  else "[\n    " ++ String.intercalate ",\n    " (l.map toString) ++ "\n  ]"

/-- `json.dumps(metadata, indent=2)`. -/
def jsonDumpIndent (md : Metadata) : String :=
  "\x7b\n  \"algorithm\": " ++ jsonStr md.algorithm
    ++ ",\n  \"obs_dim\": " ++ toString md.obs_dim
    ++ ",\n  \"act_dim\": " ++ toString md.act_dim
    ++ ",\n  \"obs_shape\": " ++ jsonNatListIndent md.obs_shape
    ++ ",\n  \"act_shape\": " ++ jsonNatListIndent md.act_shape
    ++ ",\n  \"input_model\": " ++ jsonStr md.input_model
    ++ ",\n  \"output_model\": " ++ jsonStr md.output_model
    ++ "\n\x7d"

/-- Text of a tensor row (stand-in for numpy's rendering). -/
def rowText (r : List ℚ) : String :=
  "[" ++ String.intercalate " " (r.map toString) ++ "]"

/-- Text of a 2-D tensor (stand-in for `str(tensor.numpy())`). -/
def tensorText (t : Tensor2) : String :=
  "[" ++ String.intercalate "\n " (t.map rowText) ++ "]"

/-- Text of a Python tuple of ints, e.g. `(4,)`. -/
def tupleText (l : List Nat) : String :=
  match l with
  | [] => "()"
  | [x] => "(" ++ toString x ++ ",)"
  | _ => "(" ++ String.intercalate ", " (l.map toString) ++ ")"

/-! ## `load_sb3_model` -/

/-- The `for algo_name, algo_class in algo_classes.items()` loop: try
each loader in order, swallowing exceptions (`except Exception:
continue`); every attempt opens the checkpoint file. -/
def tryLoad (env : Env) (path : String) (verbose : Bool) :
    List String → Except String Model × List Event
  | [] =>
    (Except.error ("Could not load model from " ++ path
      ++ ". Try specifying --algorithm explicitly."), [])
  | a :: rest =>
    match env.load a path with
    | .ok m =>
      (Except.ok m,
        [Event.readFile path] ++ vPrints verbose ["Successfully loaded as " ++ a])
    | .error _ =>
      let r := tryLoad env path verbose rest
      (r.1, Event.readFile path :: r.2)

/-- `load_sb3_model(model_path, algorithm, verbose)`.  An explicitly
specified algorithm (a truthy string) is uppercased, validated and its
loader called once, errors propagating; otherwise each supported loader
is tried in order. -/
def load_sb3_model (env : Env) (model_path : String) (algorithm : Option String)
    (verbose : Bool) : Except String Model × List Event :=
  match algorithm with
  | some a =>
    if a.isEmpty then
      let r := tryLoad env model_path verbose supported_algorithms
      (r.1, vPrints verbose ["Auto-detecting algorithm..."] ++ r.2)
    else
      let aU := strToUpper a
      if aU ∈ supported_algorithms then
        (env.load aU model_path,
          vPrints verbose ["Loading model with specified algorithm: " ++ aU]
            ++ [Event.readFile model_path])
      else
        (Except.error ("Unknown algorithm: " ++ aU), [])
  | none =>
    let r := tryLoad env model_path verbose supported_algorithms
    (r.1, vPrints verbose ["Auto-detecting algorithm..."] ++ r.2)

/-! ## `create_exportable_policy` -/

/-- `create_exportable_policy(model, algorithm, verbose)`. -/
def create_exportable_policy (m : Model) (algorithm : String) (verbose : Bool) :
    Except String ExportablePolicy × List Event :=
  if algorithm ∈ (["SAC", "TD3"] : List String) then
    (Except.ok (ExportablePolicy.sacTd3 ⟨m.policy.actor⟩),
      vPrints verbose ["Extracting actor network for " ++ algorithm]
        ++ [Event.selected algorithm])
  else if algorithm ∈ (["PPO", "A2C"] : List String) then
    (Except.ok (ExportablePolicy.ppoA2c ⟨m.policy⟩),
      vPrints verbose ["Extracting policy network for " ++ algorithm]
        ++ [Event.selected algorithm])
  else if algorithm = "DQN" then
    (Except.ok (ExportablePolicy.dqn ⟨m.policy.q_net⟩),
      vPrints verbose ["Extracting Q-network for " ++ algorithm]
        ++ [Event.selected algorithm])
  else
    (Except.error ("Unsupported algorithm: " ++ algorithm), [])

/-! ## `export_to_torchscript` -/

/-- The warning of lines 177-179: printed only when an algorithm was
specified (truthy), its uppercase differs from the detected one, and
verbose is on. -/
def warnSeg (algorithm : Option String) (detected_algo : String) (verbose : Bool) :
    List Event :=
  vPrints (optStrTruthy algorithm
      && (strToUpper (algorithm.getD "") != detected_algo) && verbose)
    ["Warning: Specified algorithm " ++ (algorithm.getD "")
      ++ " differs from detected " ++ detected_algo]

/-- The verbose dimension report of lines 187-190. -/
def dimsPrints (verbose : Bool) (detected_algo : String) (obs_shape act_shape : List Nat) :
    List Event :=
  vPrints verbose
    ["Algorithm: " ++ detected_algo,
     "Observation shape: " ++ tupleText obs_shape
       ++ " (flattened: " ++ toString (prodList obs_shape) ++ ")",
     "Action shape: " ++ tupleText act_shape
       ++ " (flattened: " ++ toString (prodList act_shape) ++ ")"]

/-- The tail of the pipeline once the exportable policy exists: trace
with the dummy input, freeze, optimize, run the frozen module on the
dummy input (printing shapes in verbose mode; the script performs no
comparison of the output shape), save the module, then write the JSON
metadata. -/
def traceTail (env : Env) (output_path : String) (verbose : Bool) (obs_dim : Nat)
    (pol : ExportablePolicy) (metadata : Metadata) : List Event :=
  let dummy_input := env.randn 1 obs_dim
  let test_output := pol.forward dummy_input
  let metadata_path := with_suffix_json output_path
  vPrints verbose ["Tracing model..."]
    ++ [Event.traced (shape2 dummy_input)]
    ++ vPrints verbose ["Freezing and optimizing..."]
    ++ [Event.froze, Event.optimized]
    ++ vPrints verbose ["Verifying model output..."]
    ++ [Event.verified (shape2 test_output)]
    ++ vPrints verbose
      ["Test input shape: torch.Size(" ++ jsonNatList (shape2 dummy_input) ++ ")",
       "Test output shape: torch.Size(" ++ jsonNatList (shape2 test_output) ++ ")",
       "Test output: " ++ tensorText test_output]
    ++ vPrints verbose ["Saving TorchScript model to: " ++ output_path]
    ++ [Event.writeFile output_path FileData.torchModule]
    ++ vPrints verbose ["Saving metadata to: " ++ metadata_path]
    ++ [Event.writeFile metadata_path (FileData.jsonData metadata)]
    ++ vPrints verbose ["Export complete!", "\nMetadata: " ++ jsonDumpIndent metadata]

/-- Lines 176-249 of `export_to_torchscript`: everything after the model
has been loaded. -/
def export_from_model (env : Env) (model_path output_path : String)
    (algorithm : Option String) (verbose : Bool) (model : Model) :
    Except String Metadata × List Event :=
  match detect_algorithm model with
  | .error e => (Except.error e, [])
  | .ok detected_algo =>
    let evDet := [Event.detected detected_algo] ++ warnSeg algorithm detected_algo verbose
    match get_dimensions model with
    | .error e => (Except.error e, evDet)
    | .ok dims =>
      let obs_shape := dims.1
      let act_shape := dims.2
      let obs_dim := prodList obs_shape
      let act_dim := prodList act_shape
      let prDims := dimsPrints verbose detected_algo obs_shape act_shape
      let C := create_exportable_policy model detected_algo verbose
      match C.1 with
      | .error e => (Except.error e, evDet ++ prDims ++ C.2)
      | .ok exportable_policy =>
        let metadata : Metadata :=
          { algorithm := detected_algo
            obs_dim := obs_dim
            act_dim := act_dim
            obs_shape := obs_shape
            act_shape := act_shape
            input_model := baseName model_path
            output_model := baseName output_path }
        (Except.ok metadata,
          evDet ++ prDims ++ C.2
            ++ traceTail env output_path verbose obs_dim exportable_policy metadata)

/-- `export_to_torchscript(model_path, output_path, algorithm, verbose)`:
the whole pipeline, returning the metadata (or the propagated error)
and the event trace. -/
def export_to_torchscript (env : Env) (model_path output_path : String)
    (algorithm : Option String) (verbose : Bool) :
    Except String Metadata × List Event :=
  let pr0 := vPrints verbose ["Loading model from: " ++ model_path]
  let L := load_sb3_model env model_path algorithm verbose
  match L.1 with
  | .error e => (Except.error e, pr0 ++ L.2)
  | .ok model =>
    let R := export_from_model env model_path output_path algorithm verbose model
    (R.1, pr0 ++ L.2 ++ [Event.loaded] ++ R.2)

/-! ## The CLI (`main`) -/

structure Args where
  inputPath : String
  outputPath : String
  algorithm : Option String
  verbose : Bool

/-- Observable events of a CLI run. -/
inductive CliEvent
  | errLine (s : String)
  | outLine (s : String)
  | mkdirP (dir : String)
  | ex (e : Event)
deriving DecidableEq, Repr

/-- `main()` after argument parsing: validate the input path, create the
output's parent directory, run the export, print and exit.  Returns the
exit status and the CLI event list. -/
def main_run (env : Env) (args : Args) (inputExists : Bool) : Nat × List CliEvent :=
  if !inputExists then
    (1, [CliEvent.errLine ("Error: Input file not found: " ++ args.inputPath)])
  else
    let R := export_to_torchscript env args.inputPath args.outputPath
      args.algorithm args.verbose
    match R.1 with
    | .ok md =>
      (0, [CliEvent.mkdirP (parentDir args.outputPath)] ++ R.2.map CliEvent.ex
        ++ (if !args.verbose then [CliEvent.outLine (jsonDump md)] else []))
    | .error e =>
      (1, [CliEvent.mkdirP (parentDir args.outputPath)] ++ R.2.map CliEvent.ex
        ++ [CliEvent.errLine ("Error: " ++ e)])

/-! ## Trace projections -/

/-- Pipeline-step events (excludes raw reads and stdout prints). -/
def isStepEv : Event → Bool
  | .readFile _ => false
  | .stdoutMsg _ => false
  | _ => true

def stepsOf (tr : List Event) : List Event := tr.filter isStepEv

def readsOf (tr : List Event) : List String :=
  tr.filterMap (fun e => match e with | .readFile p => some p | _ => none)

def writesOf (tr : List Event) : List String :=
  tr.filterMap (fun e => match e with | .writeFile p _ => some p | _ => none)

def stdoutOf (tr : List Event) : List String :=
  tr.filterMap (fun e => match e with | .stdoutMsg s => some s | _ => none)

def jsonWritesOf (tr : List Event) : List (String × Metadata) :=
  tr.filterMap (fun e => match e with
    | .writeFile p (FileData.jsonData md) => some (p, md)
    | _ => none)

/-- Stdout lines of a CLI run (the export's prints plus `main`'s own). -/
def cliStdoutOf (tr : List CliEvent) : List String :=
  tr.filterMap (fun e => match e with
    | .outLine s => some s
    | .ex (Event.stdoutMsg s) => some s
    | _ => none)

/-! ## Concrete instances used to evaluate the development -/

def idNet : Tensor2 → Tensor2 := fun t => t

/-- A benign policy object whose actor emits a single scalar action. -/
def basePolicy : Policy :=
  { actor := fun _ _ => [[0]]
    extract_features := fun o f => f o
    features_extractor := idNet
    share_features_extractor := true
    pi_features_extractor := idNet
    mlp_extractor := ⟨idNet⟩
    action_net := idNet
    q_net := idNet }

/-- A well-formed SAC model: 2-dim observations, 1-dim actions, actor
output shape (1, 1) matching `act_dim = 1`. -/
def mSAC : Model :=
  { class_name := "SAC"
    observation_space_shape := [2]
    action_space := ActionSpace.box [1]
    policy := basePolicy }

def envSAC : Env :=
  { load := fun a _ => if a = "SAC" then Except.ok mSAC else Except.error "not a SAC checkpoint"
    randnVal := fun _ _ => 0 }

/-- Metadata produced by exporting `mSAC` from `model.zip` to `model.pt`. -/
def mdSAC : Metadata :=
  { algorithm := "SAC", obs_dim := 2, act_dim := 1, obs_shape := [2], act_shape := [1]
    input_model := "model.zip", output_model := "model.pt" }

/-- A SAC model whose actor produces shape (1, 3) although the action
space is 2-dimensional (`act_dim = 2`). -/
def mBadShape : Model :=
  { class_name := "SAC"
    observation_space_shape := [4]
    action_space := ActionSpace.box [2]
    policy := { basePolicy with actor := fun _ _ => [[0, 0, 0]] } }

def envBadShape : Env :=
  { load := fun a _ => if a = "SAC" then Except.ok mBadShape else Except.error "load failed"
    randnVal := fun _ _ => 0 }

def mdBadShape : Metadata :=
  { algorithm := "SAC", obs_dim := 4, act_dim := 2, obs_shape := [4], act_shape := [2]
    input_model := "model.zip", output_model := "model.pt" }

/-- A TD3 model, loadable only by the TD3 loader. -/
def mTD3 : Model :=
  { class_name := "TD3"
    observation_space_shape := [3]
    action_space := ActionSpace.box [1]
    policy := basePolicy }

/-- An environment whose SAC loader raises but whose TD3 loader works. -/
def envFallback : Env :=
  { load := fun a _ => if a = "TD3" then Except.ok mTD3 else Except.error "corrupt checkpoint"
    randnVal := fun _ _ => 0 }

def mdTD3 : Metadata :=
  { algorithm := "TD3", obs_dim := 3, act_dim := 1, obs_shape := [3], act_shape := [1]
    input_model := "model.zip", output_model := "out.pt" }

/-- A model whose class name starts with SAC but which the TD3 loader
returns (e.g. a custom subclass): detection yields SAC, not TD3. -/
def mSacLike : Model :=
  { class_name := "SACX"
    observation_space_shape := [2]
    action_space := ActionSpace.box [1]
    policy := basePolicy }

def envSacLike : Env :=
  { load := fun a _ => if a = "TD3" then Except.ok mSacLike else Except.error "bad checkpoint"
    randnVal := fun _ _ => 0 }

def mdSacLike : Metadata :=
  { algorithm := "SAC", obs_dim := 2, act_dim := 1, obs_shape := [2], act_shape := [1]
    input_model := "model.zip", output_model := "out.pt" }

/-- A Q-network with two rows of three Q-values. -/
def qNetW : Tensor2 → Tensor2 := fun _ => [[1, 3, 2], [5, 4, 5]]

def argsSAC : Args :=
  { inputPath := "model.zip", outputPath := "model.pt"
    algorithm := some "SAC", verbose := false }

/-! # Lemmas -/

/-! ## Projection lemmas for trace segments -/

theorem filterMap_const_none {α β : Type} (l : List α) :
    List.filterMap (fun _ => (none : Option β)) l = [] :=
  List.filterMap_eq_nil_iff.mpr (fun _ _ => rfl)

theorem mem_vPrints {e : Event} {b : Bool} {ms : List String}
    (h : e ∈ vPrints b ms) : ∃ s, e = Event.stdoutMsg s := by
  cases b with
  | false => simp [vPrints] at h
  | true =>
    simp only [vPrints, if_true] at h
    rcases List.mem_map.mp h with ⟨s, -, rfl⟩
    exact ⟨s, rfl⟩

theorem stepsOf_vPrints (b : Bool) (ms : List String) : stepsOf (vPrints b ms) = [] := by
  cases b
  · rfl
  · simp [vPrints, stepsOf, List.filter_map, Function.comp, isStepEv, List.filter_false]

theorem readsOf_vPrints (b : Bool) (ms : List String) : readsOf (vPrints b ms) = [] := by
  cases b
  · rfl
  · simp only [vPrints, if_true, readsOf, List.filterMap_map]
    exact filterMap_const_none ms

theorem writesOf_vPrints (b : Bool) (ms : List String) : writesOf (vPrints b ms) = [] := by
  cases b
  · rfl
  · simp only [vPrints, if_true, writesOf, List.filterMap_map]
    exact filterMap_const_none ms

theorem jsonWritesOf_vPrints (b : Bool) (ms : List String) :
    jsonWritesOf (vPrints b ms) = [] := by
  cases b
  · rfl
  · simp only [vPrints, if_true, jsonWritesOf, List.filterMap_map]
    exact filterMap_const_none ms

theorem stdoutOf_vPrints (b : Bool) (ms : List String) :
    stdoutOf (vPrints b ms) = if b then ms else [] := by
  cases b
  · rfl
  · simp only [vPrints, if_true, stdoutOf, List.filterMap_map]
    induction ms with
    | nil => rfl
    | cons s t ih => simpa [List.filterMap_cons] using ih

theorem stepsOf_append (a b : List Event) : stepsOf (a ++ b) = stepsOf a ++ stepsOf b :=
  List.filter_append a b

theorem readsOf_append (a b : List Event) : readsOf (a ++ b) = readsOf a ++ readsOf b :=
  List.filterMap_append a b _

theorem writesOf_append (a b : List Event) : writesOf (a ++ b) = writesOf a ++ writesOf b :=
  List.filterMap_append a b _

theorem jsonWritesOf_append (a b : List Event) :
    jsonWritesOf (a ++ b) = jsonWritesOf a ++ jsonWritesOf b :=
  List.filterMap_append a b _

theorem stdoutOf_append (a b : List Event) : stdoutOf (a ++ b) = stdoutOf a ++ stdoutOf b :=
  List.filterMap_append a b _

/-! ## Segment lemmas: warning, dims report, pipeline tail, wrapper creation -/

theorem stepsOf_warnSeg (a : Option String) (d : String) (vb : Bool) :
    stepsOf (warnSeg a d vb) = [] := stepsOf_vPrints _ _

theorem readsOf_warnSeg (a : Option String) (d : String) (vb : Bool) :
    readsOf (warnSeg a d vb) = [] := readsOf_vPrints _ _

theorem writesOf_warnSeg (a : Option String) (d : String) (vb : Bool) :
    writesOf (warnSeg a d vb) = [] := writesOf_vPrints _ _

theorem jsonWritesOf_warnSeg (a : Option String) (d : String) (vb : Bool) :
    jsonWritesOf (warnSeg a d vb) = [] := jsonWritesOf_vPrints _ _

theorem stdoutOf_warnSeg_false (a : Option String) (d : String) :
    stdoutOf (warnSeg a d false) = [] := by
  simp [warnSeg, stdoutOf_vPrints]

theorem stepsOf_traceTail (env : Env) (op : String) (vb : Bool) (od : Nat)
    (pol : ExportablePolicy) (md : Metadata) :
    stepsOf (traceTail env op vb od pol md) =
      [Event.traced (shape2 (env.randn 1 od)), Event.froze, Event.optimized,
       Event.verified (shape2 (pol.forward (env.randn 1 od))),
       Event.writeFile op FileData.torchModule,
       Event.writeFile (with_suffix_json op) (FileData.jsonData md)] := by
  cases vb <;> rfl

theorem readsOf_traceTail (env : Env) (op : String) (vb : Bool) (od : Nat)
    (pol : ExportablePolicy) (md : Metadata) :
    readsOf (traceTail env op vb od pol md) = [] := by
  cases vb <;> rfl

theorem writesOf_traceTail (env : Env) (op : String) (vb : Bool) (od : Nat)
    (pol : ExportablePolicy) (md : Metadata) :
    writesOf (traceTail env op vb od pol md) = [op, with_suffix_json op] := by
  cases vb <;> rfl

theorem jsonWritesOf_traceTail (env : Env) (op : String) (vb : Bool) (od : Nat)
    (pol : ExportablePolicy) (md : Metadata) :
    jsonWritesOf (traceTail env op vb od pol md) = [(with_suffix_json op, md)] := by
  cases vb <;> rfl

theorem stdoutOf_traceTail_false (env : Env) (op : String) (od : Nat)
    (pol : ExportablePolicy) (md : Metadata) :
    stdoutOf (traceTail env op false od pol md) = [] := rfl

theorem create_trace_proj (m : Model) (a : String) (vb : Bool) (pol : ExportablePolicy)
    (h : (create_exportable_policy m a vb).1 = Except.ok pol) :
    stepsOf (create_exportable_policy m a vb).2 = [Event.selected a] ∧
    readsOf (create_exportable_policy m a vb).2 = [] ∧
    writesOf (create_exportable_policy m a vb).2 = [] ∧
    jsonWritesOf (create_exportable_policy m a vb).2 = [] ∧
    (vb = false → stdoutOf (create_exportable_policy m a vb).2 = []) := by
  simp only [create_exportable_policy] at h ⊢
  split_ifs at h ⊢
  · exact ⟨by cases vb <;> rfl, by cases vb <;> rfl, by cases vb <;> rfl,
      by cases vb <;> rfl, fun hv => by subst hv; rfl⟩
  · exact ⟨by cases vb <;> rfl, by cases vb <;> rfl, by cases vb <;> rfl,
      by cases vb <;> rfl, fun hv => by subst hv; rfl⟩
  · exact ⟨by cases vb <;> rfl, by cases vb <;> rfl, by cases vb <;> rfl,
      by cases vb <;> rfl, fun hv => by subst hv; rfl⟩

/-! ## Loader lemmas -/

theorem tryLoad_events (env : Env) (p : String) (v : Bool) :
    ∀ l, ∀ e ∈ (tryLoad env p v l).2,
      e = Event.readFile p ∨ ∃ s, e = Event.stdoutMsg s := by
  intro l
  induction l with
  | nil => intro e he; simp [tryLoad] at he
  | cons a rest ih =>
    intro e he
    simp only [tryLoad] at he
    cases hl : env.load a p with
    | ok m =>
      rw [hl] at he
      rcases List.mem_append.mp he with h1 | h2
      · exact Or.inl (List.mem_singleton.mp h1)
      · exact Or.inr (mem_vPrints h2)
    | error e0 =>
      rw [hl] at he
      rcases List.mem_cons.mp he with h1 | h2
      · exact Or.inl h1
      · exact ih e h2

theorem tryLoad_ok_iff (env : Env) (p : String) (v : Bool) :
    ∀ l (m : Model), (tryLoad env p v l).1 = Except.ok m ↔
      ∃ pre b post, l = pre ++ b :: post ∧ env.load b p = Except.ok m ∧
        ∀ c ∈ pre, ∃ e, env.load c p = Except.error e := by
  intro l
  induction l with
  | nil =>
    intro m
    constructor
    · intro h; simp [tryLoad] at h
    · rintro ⟨pre, b, post, hpre, -, -⟩
      exact absurd hpre (by simp)
  | cons a rest ih =>
    intro m
    simp only [tryLoad]
    cases hl : env.load a p with
    | ok m0 =>
      simp only [Except.ok.injEq]
      constructor
      · rintro rfl
        exact ⟨[], a, rest, rfl, hl, by simp⟩
      · rintro ⟨pre, b, post, hdec, hload, hpre⟩
        cases pre with
        | nil =>
          simp only [List.nil_append, List.cons.injEq] at hdec
          rcases hdec with ⟨rfl, -⟩
          exact Except.ok.inj (hl.symm.trans hload)
        | cons c pre' =>
          simp only [List.cons_append, List.cons.injEq] at hdec
          rcases hdec with ⟨rfl, -⟩
          rcases hpre a (by simp) with ⟨e, he⟩
          rw [hl] at he
          exact absurd he (by simp)
    | error e0 =>
      rw [ih m]
      constructor
      · rintro ⟨pre, b, post, hdec, hload, hpre⟩
        refine ⟨a :: pre, b, post, by simp [hdec], hload, ?_⟩
        intro c hc
        rcases List.mem_cons.mp hc with rfl | hc'
        · exact ⟨e0, hl⟩
        · exact hpre c hc'
      · rintro ⟨pre, b, post, hdec, hload, hpre⟩
        cases pre with
        | nil =>
          simp only [List.nil_append, List.cons.injEq] at hdec
          rcases hdec with ⟨rfl, rfl⟩
          rw [hl] at hload
          exact absurd hload (by simp)
        | cons c pre' =>
          simp only [List.cons_append, List.cons.injEq] at hdec
          rcases hdec with ⟨rfl, rfl⟩
          exact ⟨pre', b, post, rfl, hload, fun c' hc' => hpre c' (List.mem_cons_of_mem _ hc')⟩

theorem tryLoad_error_all (env : Env) (p : String) (v : Bool) :
    ∀ l e, (tryLoad env p v l).1 = Except.error e →
      ∀ a ∈ l, ∃ e2, env.load a p = Except.error e2 := by
  intro l
  induction l with
  | nil => intro e _ a ha; simp at ha
  | cons a rest ih =>
    intro e h b hb
    simp only [tryLoad] at h
    cases hl : env.load a p with
    | ok m => rw [hl] at h; simp at h
    | error e0 =>
      rw [hl] at h
      rcases List.mem_cons.mp hb with rfl | hb'
      · exact ⟨e0, hl⟩
      · exact ih e h b hb'

theorem tryLoad_ok_read (env : Env) (p : String) (v : Bool) :
    ∀ l (m : Model), (tryLoad env p v l).1 = Except.ok m →
      Event.readFile p ∈ (tryLoad env p v l).2 := by
  intro l
  induction l with
  | nil => intro m h; simp [tryLoad] at h
  | cons a rest ih =>
    intro m _
    simp only [tryLoad]
    cases hl : env.load a p with
    | ok m0 => simp
    | error e0 => simp

theorem tryLoad_stdout_false (env : Env) (p : String) :
    ∀ l, stdoutOf (tryLoad env p false l).2 = [] := by
  intro l
  induction l with
  | nil => rfl
  | cons a rest ih =>
    simp only [tryLoad]
    cases hl : env.load a p with
    | ok m => rfl
    | error e0 =>
      show stdoutOf (Event.readFile p :: (tryLoad env p false rest).2) = []
      simpa [stdoutOf, List.filterMap_cons] using ih

theorem load_events (env : Env) (mp : String) (algo : Option String) (vb : Bool) :
    ∀ e ∈ (load_sb3_model env mp algo vb).2,
      e = Event.readFile mp ∨ ∃ s, e = Event.stdoutMsg s := by
  intro e he
  cases algo with
  | none =>
    simp only [load_sb3_model] at he
    rcases List.mem_append.mp he with h1 | h2
    · exact Or.inr (mem_vPrints h1)
    · exact tryLoad_events env mp vb _ e h2
  | some a =>
    simp only [load_sb3_model] at he
    by_cases ha : a.isEmpty
    · rw [if_pos ha] at he
      rcases List.mem_append.mp he with h1 | h2
      · exact Or.inr (mem_vPrints h1)
      · exact tryLoad_events env mp vb _ e h2
    · rw [if_neg ha] at he
      by_cases hm : strToUpper a ∈ supported_algorithms
      · rw [if_pos hm] at he
        rcases List.mem_append.mp he with h1 | h2
        · exact Or.inr (mem_vPrints h1)
        · exact Or.inl (List.mem_singleton.mp h2)
      · rw [if_neg hm] at he
        simp at he

theorem load_ok_read (env : Env) (mp : String) (algo : Option String) (vb : Bool)
    (m : Model) (h : (load_sb3_model env mp algo vb).1 = Except.ok m) :
    Event.readFile mp ∈ (load_sb3_model env mp algo vb).2 := by
  cases algo with
  | none =>
    simp only [load_sb3_model] at h ⊢
    exact List.mem_append.mpr (Or.inr (tryLoad_ok_read env mp vb _ m h))
  | some a =>
    simp only [load_sb3_model] at h ⊢
    by_cases ha : a.isEmpty
    · rw [if_pos ha] at h ⊢
      exact List.mem_append.mpr (Or.inr (tryLoad_ok_read env mp vb _ m h))
    · rw [if_neg ha] at h ⊢
      by_cases hm : strToUpper a ∈ supported_algorithms
      · rw [if_pos hm]; simp
      · rw [if_neg hm] at h; simp at h

theorem load_stdout_false (env : Env) (mp : String) (algo : Option String) :
    stdoutOf (load_sb3_model env mp algo false).2 = [] := by
  cases algo with
  | none =>
    simp only [load_sb3_model]
    rw [stdoutOf_append]
    rw [stdoutOf_vPrints, tryLoad_stdout_false]
    rfl
  | some a =>
    simp only [load_sb3_model]
    by_cases ha : a.isEmpty
    · rw [if_pos ha]
      rw [stdoutOf_append, stdoutOf_vPrints, tryLoad_stdout_false]
      rfl
    · rw [if_neg ha]
      by_cases hm : strToUpper a ∈ supported_algorithms
      · rw [if_pos hm]
        rw [stdoutOf_append, stdoutOf_vPrints]
        rfl
      · rw [if_neg hm]
        rfl

theorem load_specified (env : Env) (mp : String) (a : String) (vb : Bool)
    (h1 : a.isEmpty = false) (h2 : strToUpper a ∈ supported_algorithms) :
    (load_sb3_model env mp (some a) vb).1 = env.load (strToUpper a) mp := by
  simp only [load_sb3_model]
  rw [if_neg (by simp [h1]), if_pos h2]

/-! ## Pipeline characterizations -/

theorem export_from_model_ok {env : Env} {mp op : String} {algo : Option String}
    {vb : Bool} {m : Model} {md : Metadata}
    (h : (export_from_model env mp op algo vb m).1 = Except.ok md) :
    ∃ d os as pol,
      detect_algorithm m = Except.ok d ∧
      get_dimensions m = Except.ok (os, as) ∧
      (create_exportable_policy m d vb).1 = Except.ok pol ∧
      md = { algorithm := d, obs_dim := prodList os, act_dim := prodList as,
             obs_shape := os, act_shape := as,
             input_model := baseName mp, output_model := baseName op } ∧
      (export_from_model env mp op algo vb m).2 =
        [Event.detected d] ++ warnSeg algo d vb
          ++ dimsPrints vb d os as
          ++ (create_exportable_policy m d vb).2
          ++ traceTail env op vb (prodList os) pol md := by
  cases hd : detect_algorithm m with
  | error e =>
    rw [export_from_model, hd] at h
    exact absurd h (by simp)
  | ok d =>
    cases hg : get_dimensions m with
    | error e =>
      rw [export_from_model, hd, hg] at h
      exact absurd h (by simp)
    | ok dims =>
      obtain ⟨os, as⟩ := dims
      cases hc : (create_exportable_policy m d vb).1 with
      | error e =>
        rw [export_from_model, hd, hg] at h
        simp only [hc] at h
        exact absurd h (by simp)
      | ok pol =>
        rw [export_from_model, hd, hg] at h
        simp only [hc] at h
        simp only [Except.ok.injEq] at h
        refine ⟨d, os, as, pol, rfl, rfl, hc, h.symm, ?_⟩
        rw [export_from_model, hd, hg]
        simp only [hc]
        rw [← h]

theorem export_ok {env : Env} {mp op : String} {algo : Option String} {vb : Bool}
    {md : Metadata}
    (h : (export_to_torchscript env mp op algo vb).1 = Except.ok md) :
    ∃ m, (load_sb3_model env mp algo vb).1 = Except.ok m ∧
      (export_from_model env mp op algo vb m).1 = Except.ok md ∧
      (export_to_torchscript env mp op algo vb).2 =
        vPrints vb ["Loading model from: " ++ mp]
          ++ (load_sb3_model env mp algo vb).2 ++ [Event.loaded]
          ++ (export_from_model env mp op algo vb m).2 := by
  cases hL : (load_sb3_model env mp algo vb).1 with
  | error e =>
    rw [export_to_torchscript] at h
    simp only [hL] at h
    exact absurd h (by simp)
  | ok m =>
    rw [export_to_torchscript] at h
    simp only [hL] at h
    refine ⟨m, rfl, h, ?_⟩
    rw [export_to_torchscript]
    simp only [hL]

theorem export_load_error {env : Env} {mp op : String} {algo : Option String}
    {vb : Bool} {e : String}
    (h : (load_sb3_model env mp algo vb).1 = Except.error e) :
    (export_to_torchscript env mp op algo vb).1 = Except.error e := by
  rw [export_to_torchscript]
  simp only [h]

/-! ## Substring and detection lemmas -/

theorem startsWithL_iff (needle : List Char) :
    ∀ hay, startsWithL needle hay = true ↔ ∃ rest, hay = needle ++ rest := by
  induction needle with
  | nil => intro hay; simp [startsWithL]
  | cons a as ih =>
    intro hay
    cases hay with
    | nil =>
      simp only [startsWithL]
      constructor
      · intro h; exact absurd h (by simp)
      · rintro ⟨rest, hrest⟩; exact absurd hrest (by simp)
    | cons b bs =>
      simp only [startsWithL, Bool.and_eq_true, beq_iff_eq]
      rw [ih bs]
      constructor
      · rintro ⟨rfl, rest, rfl⟩
        exact ⟨rest, rfl⟩
      · rintro ⟨rest, hrest⟩
        simp only [List.cons_append, List.cons.injEq] at hrest
        rcases hrest with ⟨rfl, rfl⟩
        exact ⟨rfl, rest, rfl⟩

theorem containsSub_iff (needle : List Char) :
    ∀ hay, containsSub hay needle = true ↔ ∃ pre post, hay = pre ++ needle ++ post := by
  intro hay
  induction hay with
  | nil =>
    simp only [containsSub, List.isEmpty_iff]
    constructor
    · rintro rfl; exact ⟨[], [], rfl⟩
    · rintro ⟨pre, post, h⟩
      rcases List.append_eq_nil.mp (List.append_eq_nil.mp h.symm).1 with ⟨-, h2⟩
      exact h2
  | cons c t ih =>
    simp only [containsSub, Bool.or_eq_true]
    rw [startsWithL_iff, ih]
    constructor
    · rintro (⟨rest, hrest⟩ | ⟨pre, post, hdec⟩)
      · exact ⟨[], rest, by simp [hrest]⟩
      · exact ⟨c :: pre, post, by simp [hdec]⟩
    · rintro ⟨pre, post, hdec⟩
      cases pre with
      | nil =>
        simp only [List.nil_append] at hdec
        exact Or.inl ⟨post, hdec⟩
      | cons c' pre' =>
        simp only [List.cons_append, List.cons.injEq] at hdec
        rcases hdec with ⟨rfl, hdec⟩
        exact Or.inr ⟨pre', post, hdec⟩

theorem occursIn_iff (a s : String) :
    occursIn a s ↔ containsSub (strToUpper s).toList a.toList = true := by
  rw [containsSub_iff]
  rfl

theorem findFirstAlgo_eq_some (cn : List Char) :
    ∀ l (a : String), findFirstAlgo cn l = some a ↔
      ∃ pre post, l = pre ++ a :: post ∧ containsSub cn a.toList = true ∧
        ∀ b ∈ pre, containsSub cn b.toList = false := by
  intro l
  induction l with
  | nil =>
    intro a
    constructor
    · intro h; simp [findFirstAlgo] at h
    · rintro ⟨pre, post, hdec, -, -⟩
      exact absurd hdec (by simp)
  | cons x rest ih =>
    intro a
    simp only [findFirstAlgo]
    by_cases hx : containsSub cn x.toList = true
    · rw [if_pos hx]
      simp only [Option.some.injEq]
      constructor
      · rintro rfl
        exact ⟨[], rest, rfl, hx, by simp⟩
      · rintro ⟨pre, post, hdec, hsub, hpre⟩
        cases pre with
        | nil =>
          simp only [List.nil_append, List.cons.injEq] at hdec
          exact hdec.1
        | cons c pre' =>
          simp only [List.cons_append, List.cons.injEq] at hdec
          rcases hdec with ⟨rfl, -⟩
          exact Bool.noConfusion (hx.symm.trans (hpre x (List.mem_cons_self x pre')))
    · rw [if_neg hx]
      rw [ih a]
      constructor
      · rintro ⟨pre, post, hdec, hsub, hpre⟩
        refine ⟨x :: pre, post, by simp [hdec], hsub, ?_⟩
        intro b hb
        rcases List.mem_cons.mp hb with rfl | hb'
        · exact Bool.not_eq_true _ ▸ (by simpa using hx)
        · exact hpre b hb'
      · rintro ⟨pre, post, hdec, hsub, hpre⟩
        cases pre with
        | nil =>
          simp only [List.nil_append, List.cons.injEq] at hdec
          rcases hdec with ⟨rfl, -⟩
          exact absurd hsub hx
        | cons c pre' =>
          simp only [List.cons_append, List.cons.injEq] at hdec
          rcases hdec with ⟨rfl, hdec⟩
          exact ⟨pre', post, hdec, hsub, fun b hb => hpre b (List.mem_cons_of_mem _ hb)⟩

theorem findFirstAlgo_eq_none (cn : List Char) :
    ∀ l, findFirstAlgo cn l = none ↔ ∀ b ∈ l, containsSub cn b.toList = false := by
  intro l
  induction l with
  | nil => simp [findFirstAlgo]
  | cons x rest ih =>
    simp only [findFirstAlgo]
    by_cases hx : containsSub cn x.toList = true
    · rw [if_pos hx]
      constructor
      · intro h; exact absurd h (by simp)
      · intro h; exact Bool.noConfusion (hx.symm.trans (h x (List.mem_cons_self x rest)))
    · rw [if_neg hx]
      rw [ih]
      constructor
      · intro h b hb
        rcases List.mem_cons.mp hb with rfl | hb'
        · simpa using hx
        · exact h b hb'
      · intro h b hb
        exact h b (List.mem_cons_of_mem _ hb)

/-! ## argmax lemmas -/

theorem le_foldl_max : ∀ (t : List ℚ) (a : ℚ), a ≤ t.foldl max a := by
  intro t
  induction t with
  | nil => intro a; exact le_refl a
  | cons b t ih =>
    intro a
    calc a ≤ max a b := le_max_left a b
    _ ≤ (b :: t).foldl max a := by simpa [List.foldl_cons] using ih (max a b)

theorem mem_le_foldl_max : ∀ (t : List ℚ) (a v : ℚ), v ∈ t → v ≤ t.foldl max a := by
  intro t
  induction t with
  | nil => intro a v hv; simp at hv
  | cons b t ih =>
    intro a v hv
    rcases List.mem_cons.mp hv with rfl | hv'
    · calc v ≤ max a v := le_max_right a v
      _ ≤ (v :: t).foldl max a := by simpa [List.foldl_cons] using le_foldl_max t (max a v)
    · simpa [List.foldl_cons] using ih (max a b) v hv'

theorem foldl_max_mem : ∀ (t : List ℚ) (a : ℚ), t.foldl max a = a ∨ t.foldl max a ∈ t := by
  intro t
  induction t with
  | nil => intro a; exact Or.inl rfl
  | cons b t ih =>
    intro a
    rcases ih (max a b) with h | h
    · rcases max_choice a b with hm | hm
      · left
        simp only [List.foldl_cons]
        rw [h, hm]
      · right
        simp only [List.foldl_cons]
        rw [h, hm]
        exact List.mem_cons_self b t
    · right
      simp only [List.foldl_cons]
      exact List.mem_cons_of_mem b h

theorem listMax_mem (l : List ℚ) (h : l ≠ []) : listMax l ∈ l := by
  cases l with
  | nil => exact absurd rfl h
  | cons x t =>
    simp only [listMax]
    rcases foldl_max_mem t x with h | h
    · rw [h]; exact List.mem_cons_self x t
    · exact List.mem_cons_of_mem x h

theorem le_listMax (l : List ℚ) (v : ℚ) (hv : v ∈ l) : v ≤ listMax l := by
  cases l with
  | nil => simp at hv
  | cons x t =>
    simp only [listMax]
    rcases List.mem_cons.mp hv with rfl | hv'
    · exact le_foldl_max t v
    · exact mem_le_foldl_max t x v hv'

theorem firstIdxOf_lt (a : ℚ) : ∀ l, a ∈ l → firstIdxOf a l < l.length := by
  intro l
  induction l with
  | nil => intro h; simp at h
  | cons x t ih =>
    intro h
    simp only [firstIdxOf]
    by_cases hx : x = a
    · rw [if_pos hx]; simp
    · rw [if_neg hx]
      have : a ∈ t := by
        rcases List.mem_cons.mp h with rfl | h'
        · exact absurd rfl hx
        · exact h'
      simpa [List.length_cons, Nat.succ_lt_succ_iff] using ih this

theorem get?_firstIdxOf (a : ℚ) : ∀ l : List ℚ, a ∈ l → l.get? (firstIdxOf a l) = some a := by
  intro l
  induction l with
  | nil => intro h; simp at h
  | cons x t ih =>
    intro h
    simp only [firstIdxOf]
    by_cases hx : x = a
    · rw [if_pos hx]; simp [hx]
    · rw [if_neg hx]
      have : a ∈ t := by
        rcases List.mem_cons.mp h with rfl | h'
        · exact absurd rfl hx
        · exact h'
      simpa [List.get?_cons_succ] using ih this

/-! ## Detection characterization -/

theorem detect_eq_ok_iff (m : Model) (a : String) :
    detect_algorithm m = Except.ok a ↔
      findFirstAlgo (strToUpper m.class_name).toList supported_algorithms = some a := by
  simp only [detect_algorithm]
  cases hf : findFirstAlgo (strToUpper m.class_name).toList supported_algorithms with
  | some x => simp
  | none => simp

theorem detect_eq_error_iff (m : Model) :
    (∃ e, detect_algorithm m = Except.error e) ↔
      findFirstAlgo (strToUpper m.class_name).toList supported_algorithms = none := by
  simp only [detect_algorithm]
  cases hf : findFirstAlgo (strToUpper m.class_name).toList supported_algorithms with
  | some x => simp
  | none => simp

theorem not_occursIn_eq_false {a s : String} (h : ¬ occursIn a s) :
    containsSub (strToUpper s).toList a.toList = false := by
  cases hX : containsSub (strToUpper s).toList a.toList
  · rfl
  · exact absurd ((occursIn_iff a s).mpr hX) h

theorem eq_false_not_occursIn {a s : String}
    (h : containsSub (strToUpper s).toList a.toList = false) : ¬ occursIn a s :=
  fun hocc => Bool.noConfusion (((occursIn_iff a s).mp hocc).symm.trans h)

/-- C3: algorithm auto-detection returns algorithm `a` iff `a` is the
first of SAC, TD3, PPO, A2C, DQN (in that order) occurring as a
substring of the model's uppercased class name, and raises a
`ValueError` exactly when none of the five occurs. -/
theorem detect_algorithm_spec (m : Model) :
    (∀ a, detect_algorithm m = Except.ok a ↔
      ∃ pre post, supported_algorithms = pre ++ a :: post ∧
        occursIn a m.class_name ∧ ∀ b ∈ pre, ¬ occursIn b m.class_name) ∧
    ((∃ e, detect_algorithm m = Except.error e) ↔
      ∀ b ∈ supported_algorithms, ¬ occursIn b m.class_name) := by
  constructor
  · intro a
    rw [detect_eq_ok_iff, findFirstAlgo_eq_some]
    constructor
    · rintro ⟨pre, post, hdec, hsub, hpre⟩
      exact ⟨pre, post, hdec, (occursIn_iff a m.class_name).mpr hsub,
        fun b hb => eq_false_not_occursIn (hpre b hb)⟩
    · rintro ⟨pre, post, hdec, hocc, hpre⟩
      exact ⟨pre, post, hdec, (occursIn_iff a m.class_name).mp hocc,
        fun b hb => not_occursIn_eq_false (hpre b hb)⟩
  · rw [detect_eq_error_iff, findFirstAlgo_eq_none]
    constructor
    · intro h b hb
      exact eq_false_not_occursIn (h b hb)
    · intro h b hb
      exact not_occursIn_eq_false (h b hb)

/-- Witness for C3: on the concrete SAC model the characterization
yields detection of `"SAC"`. -/
theorem detect_algorithm_spec_witness : detect_algorithm mSAC = Except.ok "SAC" :=
  ((detect_algorithm_spec mSAC).1 "SAC").mpr
    ⟨[], ["TD3", "PPO", "A2C", "DQN"], rfl, ⟨[], [], by decide⟩, by simp⟩

/-- C5: the exported forward path is selected by algorithm family: for
SAC/TD3 the model's actor invoked deterministically; for PPO/A2C the
policy's mean action (features, actor latent, `action_net`, no
sampling); for DQN the argmax over the Q-network's outputs; any other
algorithm string raises a `ValueError`. -/
theorem wrapper_selection_spec (m : Model) (a : String) (vb : Bool) :
    (a ∈ (["SAC", "TD3"] : List String) →
      (create_exportable_policy m a vb).1
          = Except.ok (ExportablePolicy.sacTd3 ⟨m.policy.actor⟩) ∧
      ∀ obs, ExportablePolicy.forward (ExportablePolicy.sacTd3 ⟨m.policy.actor⟩) obs
          = m.policy.actor obs true) ∧
    (a ∈ (["PPO", "A2C"] : List String) →
      (create_exportable_policy m a vb).1
          = Except.ok (ExportablePolicy.ppoA2c ⟨m.policy⟩) ∧
      ∀ obs, ExportablePolicy.forward (ExportablePolicy.ppoA2c ⟨m.policy⟩) obs
          = m.policy.action_net
              (if m.policy.share_features_extractor then
                m.policy.mlp_extractor.forward_actor
                  (m.policy.extract_features obs m.policy.features_extractor)
              else
                m.policy.mlp_extractor.forward_actor
                  (m.policy.pi_features_extractor obs))) ∧
    (a = "DQN" →
      (create_exportable_policy m a vb).1
          = Except.ok (ExportablePolicy.dqn ⟨m.policy.q_net⟩) ∧
      ∀ obs, ExportablePolicy.forward (ExportablePolicy.dqn ⟨m.policy.q_net⟩) obs
          = (m.policy.q_net obs).map (fun row => [((argmaxIdx row : ℕ) : ℚ)])) ∧
    (a ∉ supported_algorithms → ∃ e, (create_exportable_policy m a vb).1 = Except.error e) := by
  refine ⟨?_, ?_, ?_, ?_⟩
  · intro h
    exact ⟨by simp [create_exportable_policy, h], fun obs => rfl⟩
  · intro h
    have h1 : a ∉ (["SAC", "TD3"] : List String) := by
      rcases List.mem_pair.mp h with rfl | rfl <;> decide
    exact ⟨by simp [create_exportable_policy, h, h1], fun obs => rfl⟩
  · rintro rfl
    exact ⟨by simp [create_exportable_policy], fun obs => rfl⟩
  · intro h
    have h1 : a ∉ (["SAC", "TD3"] : List String) := by
      intro hc
      exact h (by rcases List.mem_pair.mp hc with rfl | rfl <;> decide)
    have h2 : a ∉ (["PPO", "A2C"] : List String) := by
      intro hc
      exact h (by rcases List.mem_pair.mp hc with rfl | rfl <;> decide)
    have h3 : a ≠ "DQN" := by
      intro hc
      exact h (by rw [hc]; decide)
    refine ⟨"Unsupported algorithm: " ++ a, ?_⟩
    simp [create_exportable_policy, h1, h2, h3]

/-- Witness for C5: for the concrete SAC model and algorithm string
`"SAC"`, the actor wrapper is selected and applied deterministically. -/
theorem wrapper_selection_spec_witness :
    (create_exportable_policy mSAC "SAC" false).1
        = Except.ok (ExportablePolicy.sacTd3 ⟨mSAC.policy.actor⟩) ∧
    ExportablePolicy.forward (ExportablePolicy.sacTd3 ⟨mSAC.policy.actor⟩) [[1, 2]]
        = mSAC.policy.actor [[1, 2]] true := by
  have h := (wrapper_selection_spec mSAC "SAC" false).1 (by decide)
  exact ⟨h.1, h.2 [[1, 2]]⟩

/-- C9: on a Q-value tensor of shape (B, n) with n ≥ 1, the DQN wrapper
returns a float tensor of shape (B, 1) whose single column holds the
index of a maximal Q-value per row, and the output is a function of the
input alone. -/
theorem dqn_wrapper_spec (q : Tensor2 → Tensor2) (obs obs2 : Tensor2) (B n : Nat)
    (hn : 1 ≤ n) (hshape : isShape (q obs) B n) :
    isShape (OnnxableDQNPolicy.forward ⟨q⟩ obs) B 1 ∧
    OnnxableDQNPolicy.forward ⟨q⟩ obs
        = (q obs).map (fun row => [((argmaxIdx row : ℕ) : ℚ)]) ∧
    (∀ row ∈ q obs, argmaxIdx row < n ∧
      ∃ mx, row.get? (argmaxIdx row) = some mx ∧ ∀ v ∈ row, v ≤ mx) ∧
    (obs = obs2 → OnnxableDQNPolicy.forward ⟨q⟩ obs = OnnxableDQNPolicy.forward ⟨q⟩ obs2) := by
  have hfwd : OnnxableDQNPolicy.forward ⟨q⟩ obs
      = (q obs).map (fun row => [((argmaxIdx row : ℕ) : ℚ)]) := rfl
  refine ⟨⟨?_, ?_⟩, hfwd, ?_, ?_⟩
  · rw [hfwd, List.length_map]
    exact hshape.1
  · intro row hrow
    rw [hfwd] at hrow
    rcases List.mem_map.mp hrow with ⟨r, -, rfl⟩
    rfl
  · intro row hrow
    have hne : row ≠ [] := by
      intro hnil
      have h0 := hshape.2 row hrow
      rw [hnil] at h0
      simp at h0
      omega
    have hmem := listMax_mem row hne
    refine ⟨?_, listMax row, ?_, fun v hv => le_listMax row v hv⟩
    · have hlt := firstIdxOf_lt (listMax row) row hmem
      rw [hshape.2 row hrow] at hlt
      exact hlt
    · exact get?_firstIdxOf (listMax row) row hmem
  · rintro rfl
    rfl

/-- Witness for C9: a concrete 2 × 3 Q-tensor gives output shape (2, 1)
with the per-row first maximal indices 1 and 0. -/
theorem dqn_wrapper_spec_witness :
    isShape (OnnxableDQNPolicy.forward ⟨qNetW⟩ [[0]]) 2 1 ∧
    OnnxableDQNPolicy.forward ⟨qNetW⟩ [[0]] = [[1], [0]] := by
  have h := dqn_wrapper_spec qNetW [[0]] [[0]] 2 3 (by decide) ⟨rfl, by decide⟩
  exact ⟨h.1, by decide⟩

/-! ## Derived projections of the load trace and dims report -/

theorem stepsOf_load (env : Env) (mp : String) (algo : Option String) (vb : Bool) :
    stepsOf (load_sb3_model env mp algo vb).2 = [] :=
  List.filter_eq_nil_iff.mpr (fun e he => by
    rcases load_events env mp algo vb e he with rfl | ⟨s, rfl⟩ <;> simp [isStepEv])

theorem writesOf_load (env : Env) (mp : String) (algo : Option String) (vb : Bool) :
    writesOf (load_sb3_model env mp algo vb).2 = [] :=
  List.filterMap_eq_nil_iff.mpr (fun e he => by
    rcases load_events env mp algo vb e he with rfl | ⟨s, rfl⟩ <;> rfl)

theorem jsonWritesOf_load (env : Env) (mp : String) (algo : Option String) (vb : Bool) :
    jsonWritesOf (load_sb3_model env mp algo vb).2 = [] :=
  List.filterMap_eq_nil_iff.mpr (fun e he => by
    rcases load_events env mp algo vb e he with rfl | ⟨s, rfl⟩ <;> rfl)

theorem readsOf_load_sub (env : Env) (mp : String) (algo : Option String) (vb : Bool) :
    ∀ p ∈ readsOf (load_sb3_model env mp algo vb).2, p = mp := by
  intro p hp
  rcases List.mem_filterMap.mp hp with ⟨e, he, hfe⟩
  rcases load_events env mp algo vb e he with rfl | ⟨s, rfl⟩
  · exact (Option.some.inj hfe).symm
  · exact absurd hfe (by simp)

theorem stepsOf_dimsPrints (vb : Bool) (d : String) (os as : List Nat) :
    stepsOf (dimsPrints vb d os as) = [] := stepsOf_vPrints _ _

theorem readsOf_dimsPrints (vb : Bool) (d : String) (os as : List Nat) :
    readsOf (dimsPrints vb d os as) = [] := readsOf_vPrints _ _

theorem writesOf_dimsPrints (vb : Bool) (d : String) (os as : List Nat) :
    writesOf (dimsPrints vb d os as) = [] := writesOf_vPrints _ _

theorem jsonWritesOf_dimsPrints (vb : Bool) (d : String) (os as : List Nat) :
    jsonWritesOf (dimsPrints vb d os as) = [] := jsonWritesOf_vPrints _ _

theorem stdoutOf_dimsPrints_false (d : String) (os as : List Nat) :
    stdoutOf (dimsPrints false d os as) = [] := by
  rw [dimsPrints, stdoutOf_vPrints]
  rfl

/-- C2: every successful export writes a sidecar JSON file at the output
path with its extension replaced by `.json`, containing the detected
algorithm, `obs_shape` (the observation space shape), `act_shape` (the
action space shape, or `(1,)` for a discrete action space), and
`obs_dim`/`act_dim` equal to the products of those shapes. -/
theorem metadata_sidecar_spec (env : Env) (mp op : String) (algo : Option String)
    (vb : Bool) (md : Metadata)
    (h : (export_to_torchscript env mp op algo vb).1 = Except.ok md) :
    ∃ m d,
      (load_sb3_model env mp algo vb).1 = Except.ok m ∧
      detect_algorithm m = Except.ok d ∧
      md.algorithm = d ∧
      md.obs_shape = m.observation_space_shape ∧
      (∀ s, m.action_space = ActionSpace.box s → md.act_shape = s) ∧
      (∀ k, m.action_space = ActionSpace.discrete k → md.act_shape = [1]) ∧
      md.obs_dim = prodList md.obs_shape ∧
      md.act_dim = prodList md.act_shape ∧
      jsonWritesOf (export_to_torchscript env mp op algo vb).2
        = [(with_suffix_json op, md)] := by
  obtain ⟨m, hL, hfm, htr⟩ := export_ok h
  obtain ⟨d, os, as, pol, hd, hg, hc, hmd, htr2⟩ := export_from_model_ok hfm
  have hdim : os = m.observation_space_shape ∧
      (∀ s, m.action_space = ActionSpace.box s → as = s) ∧
      (∀ k, m.action_space = ActionSpace.discrete k → as = [1]) := by
    cases hA : m.action_space with
    | box s =>
      simp only [get_dimensions, hA, Except.ok.injEq, Prod.mk.injEq] at hg
      refine ⟨hg.1.symm, ?_, ?_⟩
      · intro s' hs'
        have hss : s = s' := ActionSpace.box.inj hs'
        rw [← hss]
        exact hg.2.symm
      · intro k hk
        exact absurd hk (by simp)
    | discrete k =>
      simp only [get_dimensions, hA, Except.ok.injEq, Prod.mk.injEq] at hg
      exact ⟨hg.1.symm,
        fun s' hs' => absurd hs' (by simp),
        fun k' hk' => hg.2.symm⟩
    | unsupported =>
      simp only [get_dimensions, hA] at hg
      exact absurd hg (by simp)
  subst hmd
  refine ⟨m, d, hL, hd, rfl, hdim.1, ?_, ?_, rfl, rfl, ?_⟩
  · intro s hs
    exact hdim.2.1 s hs
  · intro k hk
    exact hdim.2.2 k hk
  · rw [htr, htr2]
    simp only [jsonWritesOf_append, jsonWritesOf_vPrints, jsonWritesOf_warnSeg,
      jsonWritesOf_dimsPrints, (create_trace_proj _ _ _ _ hc).2.2.2.1,
      jsonWritesOf_traceTail, jsonWritesOf_load]
    simp [jsonWritesOf]

/-- Witness for C2: the concrete SAC export writes `model.json` with
the dimensional fields equal to the shape products. -/
theorem metadata_sidecar_spec_witness :
    jsonWritesOf (export_to_torchscript envSAC "model.zip" "model.pt" (some "SAC") false).2
        = [("model.json", mdSAC)] ∧
    mdSAC.obs_dim = prodList mdSAC.obs_shape ∧
    mdSAC.act_dim = prodList mdSAC.act_shape := by
  obtain ⟨m, d, -, -, -, -, -, -, h7, h8, h9⟩ :=
    metadata_sidecar_spec envSAC "model.zip" "model.pt" (some "SAC") false mdSAC rfl
  have hwsj : with_suffix_json "model.pt" = "model.json" := by decide
  rw [hwsj] at h9
  exact ⟨h9, h7, h8⟩

theorem shape2_randn (env : Env) (c : Nat) : shape2 (env.randn 1 c) = [1, c] := by
  have h1 : List.range 1 = [0] := rfl
  simp [Env.randn, shape2, h1]

/-- C4: every successful export runs the pipeline in order: load, detect,
select wrapper, trace with a dummy input of shape (1, obs_dim), freeze,
optimize, verify, persist the module and then the JSON metadata; no step
is skipped or reordered. -/
theorem pipeline_order_spec (env : Env) (mp op : String) (algo : Option String)
    (vb : Bool) (md : Metadata)
    (h : (export_to_torchscript env mp op algo vb).1 = Except.ok md) :
    ∃ s, stepsOf (export_to_torchscript env mp op algo vb).2 =
      [Event.loaded, Event.detected md.algorithm, Event.selected md.algorithm,
       Event.traced [1, md.obs_dim], Event.froze, Event.optimized, Event.verified s,
       Event.writeFile op FileData.torchModule,
       Event.writeFile (with_suffix_json op) (FileData.jsonData md)] := by
  obtain ⟨m, hL, hfm, htr⟩ := export_ok h
  obtain ⟨d, os, as, pol, hd, hg, hc, hmd, htr2⟩ := export_from_model_ok hfm
  refine ⟨shape2 (pol.forward (env.randn 1 (prodList os))), ?_⟩
  rw [htr, htr2]
  simp only [stepsOf_append, stepsOf_vPrints, stepsOf_load, stepsOf_warnSeg,
    stepsOf_dimsPrints, (create_trace_proj _ _ _ _ hc).1, stepsOf_traceTail]
  rw [shape2_randn]
  subst hmd
  simp [stepsOf, isStepEv]

/-- Witness for C4: the concrete SAC export produces exactly the ordered
step list. -/
theorem pipeline_order_spec_witness :
    stepsOf (export_to_torchscript envSAC "model.zip" "model.pt" (some "SAC") false).2 =
      [Event.loaded, Event.detected "SAC", Event.selected "SAC",
       Event.traced [1, 2], Event.froze, Event.optimized, Event.verified [1, 1],
       Event.writeFile "model.pt" FileData.torchModule,
       Event.writeFile "model.json" (FileData.jsonData mdSAC)] := by
  obtain ⟨s, -⟩ :=
    pipeline_order_spec envSAC "model.zip" "model.pt" (some "SAC") false mdSAC rfl
  decide

/-- C1 counterexample: for `envBadShape` the frozen module's output on
the dummy input has shape (1, 3) while the expected action dimension is
`act_dim = 2`, yet the export completes successfully — the script never
compares the output shape with `act_dim`. -/
theorem shape_check_absent_cex :
    (export_to_torchscript envBadShape "model.zip" "model.pt" (some "SAC") false).1
        = Except.ok mdBadShape ∧
    Event.verified [1, 3]
        ∈ (export_to_torchscript envBadShape "model.zip" "model.pt" (some "SAC") false).2 ∧
    mdBadShape.act_dim = 2 :=
  ⟨rfl, by decide, rfl⟩

/-- C1 (amended): after freezing and optimizing, every successful export
runs the frozen module on the dummy input and records its output shape
(printing it in verbose mode) strictly before the module and the
metadata are persisted; the recorded shape is exactly the module's
output shape, but it is not compared with `act_dim`. -/
theorem verify_runs_module_spec (env : Env) (mp op : String) (algo : Option String)
    (vb : Bool) (md : Metadata)
    (h : (export_to_torchscript env mp op algo vb).1 = Except.ok md) :
    ∃ m d pol,
      (load_sb3_model env mp algo vb).1 = Except.ok m ∧
      detect_algorithm m = Except.ok d ∧
      (create_exportable_policy m d vb).1 = Except.ok pol ∧
      stepsOf (export_to_torchscript env mp op algo vb).2 =
        [Event.loaded, Event.detected d, Event.selected d,
         Event.traced [1, md.obs_dim], Event.froze, Event.optimized,
         Event.verified (shape2 (ExportablePolicy.forward pol (env.randn 1 md.obs_dim))),
         Event.writeFile op FileData.torchModule,
         Event.writeFile (with_suffix_json op) (FileData.jsonData md)] := by
  obtain ⟨m, hL, hfm, htr⟩ := export_ok h
  obtain ⟨d, os, as, pol, hd, hg, hc, hmd, htr2⟩ := export_from_model_ok hfm
  refine ⟨m, d, pol, hL, hd, hc, ?_⟩
  rw [htr, htr2]
  simp only [stepsOf_append, stepsOf_vPrints, stepsOf_load, stepsOf_warnSeg,
    stepsOf_dimsPrints, (create_trace_proj _ _ _ _ hc).1, stepsOf_traceTail]
  rw [shape2_randn]
  subst hmd
  simp [stepsOf, isStepEv]

/-- Witness for the amended C1: in the concrete SAC export the verified
shape is the module's actual output shape on the dummy input. -/
theorem verify_runs_module_spec_witness :
    Event.verified (shape2 (ExportablePolicy.forward
        (ExportablePolicy.sacTd3 ⟨mSAC.policy.actor⟩) (envSAC.randn 1 2)))
      ∈ (export_to_torchscript envSAC "model.zip" "model.pt" (some "SAC") false).2 := by
  obtain ⟨m, d, pol, -, -, -, -⟩ :=
    verify_runs_module_spec envSAC "model.zip" "model.pt" (some "SAC") false mdSAC rfl
  decide

/-- C6 counterexample: in `envFallback` the SAC loader raises, yet the
auto-detecting export swallows the exception, falls back to the TD3
loader and completes successfully — loading exceptions do not always
propagate, contrary to the claim. -/
theorem load_fallback_cex :
    envFallback.load "SAC" "model.zip" = Except.error "corrupt checkpoint" ∧
    (export_to_torchscript envFallback "model.zip" "out.pt" none false).1
        = Except.ok mdTD3 :=
  ⟨rfl, rfl⟩

/-- C6 (amended): with an explicitly specified algorithm, loader errors
propagate unchanged; with auto-detection the loader tries each of the
five classes in order, swallowing exceptions, returning the first
success and failing only when all five loaders fail; a load failure
propagates out of the export unchanged. All other pipeline steps have no
exception handling (they are pure sequential calls in the embedding). -/
theorem load_error_handling_spec (env : Env) (mp op : String) (a : String) (vb : Bool) :
    (a.isEmpty = false → strToUpper a ∈ supported_algorithms →
      (load_sb3_model env mp (some a) vb).1 = env.load (strToUpper a) mp) ∧
    (∀ m : Model, (load_sb3_model env mp none vb).1 = Except.ok m ↔
      ∃ pre b post, supported_algorithms = pre ++ b :: post ∧
        env.load b mp = Except.ok m ∧
        ∀ c ∈ pre, ∃ e, env.load c mp = Except.error e) ∧
    (∀ e, (load_sb3_model env mp none vb).1 = Except.error e →
      ∀ b ∈ supported_algorithms, ∃ e2, env.load b mp = Except.error e2) ∧
    (∀ algo e, (load_sb3_model env mp algo vb).1 = Except.error e →
      (export_to_torchscript env mp op algo vb).1 = Except.error e) := by
  refine ⟨load_specified env mp a vb, ?_, ?_, ?_⟩
  · intro m
    simp only [load_sb3_model]
    exact tryLoad_ok_iff env mp vb supported_algorithms m
  · intro e h
    simp only [load_sb3_model] at h
    exact tryLoad_error_all env mp vb supported_algorithms e h
  · intro algo e h
    exact export_load_error h

/-- Witness for the amended C6: auto-detection succeeds on `envFallback`
via the TD3 loader after the SAC loader fails. -/
theorem load_error_handling_spec_witness :
    (load_sb3_model envFallback "model.zip" none false).1 = Except.ok mTD3 :=
  ((load_error_handling_spec envFallback "model.zip" "out.pt" "SAC" false).2.1 mTD3).mpr
    ⟨["SAC"], "TD3", ["PPO", "A2C", "DQN"], rfl, rfl, by
      intro c hc
      rcases List.mem_singleton.mp hc with rfl
      exact ⟨"corrupt checkpoint", rfl⟩⟩

/-! ## I/O surface lemmas -/

theorem readsOf_detected_cons (d : String) (tr : List Event) :
    readsOf (Event.detected d :: tr) = readsOf tr := rfl

theorem writesOf_detected_cons (d : String) (tr : List Event) :
    writesOf (Event.detected d :: tr) = writesOf tr := rfl

theorem jsonWritesOf_detected_cons (d : String) (tr : List Event) :
    jsonWritesOf (Event.detected d :: tr) = jsonWritesOf tr := rfl

theorem create_error_trace (m : Model) (a : String) (vb : Bool) (e : String)
    (h : (create_exportable_policy m a vb).1 = Except.error e) :
    (create_exportable_policy m a vb).2 = [] := by
  simp only [create_exportable_policy] at h ⊢
  split_ifs at h ⊢
  rfl

theorem readsOf_from_model (env : Env) (mp op : String) (algo : Option String)
    (vb : Bool) (m : Model) :
    readsOf (export_from_model env mp op algo vb m).2 = [] := by
  cases hd : detect_algorithm m with
  | error e =>
    simp only [export_from_model, hd]
    rfl
  | ok d =>
    cases hg : get_dimensions m with
    | error e =>
      simp only [export_from_model, hd, hg]
      simp [readsOf_append, readsOf_warnSeg, readsOf_detected_cons,
        show readsOf ([] : List Event) = [] from rfl]
    | ok dims =>
      obtain ⟨os, as⟩ := dims
      cases hc : (create_exportable_policy m d vb).1 with
      | error e =>
        simp only [export_from_model, hd, hg, hc]
        rw [create_error_trace m d vb e hc]
        simp [readsOf_append, readsOf_warnSeg, readsOf_dimsPrints, readsOf_detected_cons,
          show readsOf ([] : List Event) = [] from rfl]
      | ok pol =>
        simp only [export_from_model, hd, hg, hc]
        simp [readsOf_append, readsOf_warnSeg, readsOf_dimsPrints, readsOf_detected_cons,
          (create_trace_proj _ _ _ _ hc).2.1, readsOf_traceTail,
          show readsOf ([] : List Event) = [] from rfl]

theorem writesOf_from_model (env : Env) (mp op : String) (algo : Option String)
    (vb : Bool) (m : Model) :
    (∀ md, (export_from_model env mp op algo vb m).1 = Except.ok md →
      writesOf (export_from_model env mp op algo vb m).2 = [op, with_suffix_json op]) ∧
    (∀ e, (export_from_model env mp op algo vb m).1 = Except.error e →
      writesOf (export_from_model env mp op algo vb m).2 = []) := by
  constructor
  · intro md h
    obtain ⟨d, os, as, pol, hd, hg, hc, hmd, htr2⟩ := export_from_model_ok h
    rw [htr2]
    simp [writesOf_append, writesOf_warnSeg, writesOf_dimsPrints, writesOf_detected_cons,
      (create_trace_proj _ _ _ _ hc).2.2.1, writesOf_traceTail,
      show writesOf ([] : List Event) = [] from rfl]
  · intro e h
    cases hd : detect_algorithm m with
    | error e0 =>
      simp only [export_from_model, hd]
      rfl
    | ok d =>
      cases hg : get_dimensions m with
      | error e0 =>
        simp only [export_from_model, hd, hg]
        simp [writesOf_append, writesOf_warnSeg, writesOf_detected_cons,
          show writesOf ([] : List Event) = [] from rfl]
      | ok dims =>
        obtain ⟨os, as⟩ := dims
        cases hc : (create_exportable_policy m d vb).1 with
        | error e0 =>
          simp only [export_from_model, hd, hg, hc]
          rw [create_error_trace m d vb e0 hc]
          simp [writesOf_append, writesOf_warnSeg, writesOf_dimsPrints, writesOf_detected_cons,
            show writesOf ([] : List Event) = [] from rfl]
        | ok pol =>
          rw [export_from_model] at h
          simp only [hd, hg, hc] at h
          exact absurd h (by simp)

/-- C7: the file I/O surface of every export run is exactly: reads of
the one checkpoint file at the input path, and (on success) exactly two
writes, the TorchScript module at the output path followed by the JSON
metadata at the output path with `.json` suffix; no other file is read
or written. -/
theorem io_surface_spec (env : Env) (mp op : String) (algo : Option String) (vb : Bool) :
    (∀ p ∈ readsOf (export_to_torchscript env mp op algo vb).2, p = mp) ∧
    (∀ p ∈ writesOf (export_to_torchscript env mp op algo vb).2,
      p = op ∨ p = with_suffix_json op) ∧
    (∀ md, (export_to_torchscript env mp op algo vb).1 = Except.ok md →
      readsOf (export_to_torchscript env mp op algo vb).2 ≠ [] ∧
      writesOf (export_to_torchscript env mp op algo vb).2 = [op, with_suffix_json op]) := by
  cases hL : (load_sb3_model env mp algo vb).1 with
  | error e =>
    have htr : (export_to_torchscript env mp op algo vb).2 =
        vPrints vb ["Loading model from: " ++ mp] ++ (load_sb3_model env mp algo vb).2 := by
      rw [export_to_torchscript]
      simp only [hL]
    have hres : (export_to_torchscript env mp op algo vb).1 = Except.error e := by
      rw [export_to_torchscript]
      simp only [hL]
    refine ⟨?_, ?_, ?_⟩
    · intro p hp
      rw [htr, readsOf_append, readsOf_vPrints] at hp
      exact readsOf_load_sub env mp algo vb p (by simpa using hp)
    · intro p hp
      rw [htr, writesOf_append, writesOf_vPrints, writesOf_load] at hp
      simp at hp
    · intro md hmd
      rw [hres] at hmd
      exact absurd hmd (by simp)
  | ok m =>
    have htr : (export_to_torchscript env mp op algo vb).2 =
        vPrints vb ["Loading model from: " ++ mp] ++ (load_sb3_model env mp algo vb).2
          ++ [Event.loaded] ++ (export_from_model env mp op algo vb m).2 := by
      rw [export_to_torchscript]
      simp only [hL]
    have hres : (export_to_torchscript env mp op algo vb).1
        = (export_from_model env mp op algo vb m).1 := by
      rw [export_to_torchscript]
      simp only [hL]
    refine ⟨?_, ?_, ?_⟩
    · intro p hp
      rw [htr] at hp
      simp only [readsOf_append, readsOf_vPrints, readsOf_from_model] at hp
      have hp' : p ∈ readsOf (load_sb3_model env mp algo vb).2 := by
        simpa [readsOf] using hp
      exact readsOf_load_sub env mp algo vb p hp'
    · intro p hp
      rw [htr] at hp
      simp only [writesOf_append, writesOf_vPrints, writesOf_load] at hp
      have hp' : p ∈ writesOf (export_from_model env mp op algo vb m).2 := by
        simpa [writesOf] using hp
      cases hfm : (export_from_model env mp op algo vb m).1 with
      | ok md =>
        rw [(writesOf_from_model env mp op algo vb m).1 md hfm] at hp'
        rcases List.mem_cons.mp hp' with rfl | hp''
        · exact Or.inl rfl
        · exact Or.inr (List.mem_singleton.mp hp'')
      | error e =>
        rw [(writesOf_from_model env mp op algo vb m).2 e hfm] at hp'
        exact absurd hp' (by simp)
    · intro md hmd
      rw [hres] at hmd
      constructor
      · have hrd := load_ok_read env mp algo vb m hL
        have : mp ∈ readsOf (export_to_torchscript env mp op algo vb).2 := by
          rw [htr]
          simp only [readsOf_append]
          refine List.mem_append.mpr (Or.inl (List.mem_append.mpr (Or.inl ?_)))
          exact List.mem_append.mpr (Or.inr (List.mem_filterMap.mpr ⟨Event.readFile mp, hrd, rfl⟩))
        exact List.ne_nil_of_mem this
      · rw [htr]
        simp only [writesOf_append, writesOf_vPrints, writesOf_load,
          (writesOf_from_model env mp op algo vb m).1 md hmd]
        simp [writesOf]

/-- Witness for C7: on the concrete SAC export the checkpoint is read
and exactly the module and its JSON sidecar are written. -/
theorem io_surface_spec_witness :
    readsOf (export_to_torchscript envSAC "model.zip" "model.pt" (some "SAC") false).2 ≠ [] ∧
    writesOf (export_to_torchscript envSAC "model.zip" "model.pt" (some "SAC") false).2
      = ["model.pt", with_suffix_json "model.pt"] :=
  (io_surface_spec envSAC "model.zip" "model.pt" (some "SAC") false).2.2 mdSAC rfl

theorem mem_stdoutOf {s : String} {tr : List Event}
    (h : Event.stdoutMsg s ∈ tr) : s ∈ stdoutOf tr :=
  List.mem_filterMap.mpr ⟨Event.stdoutMsg s, h, rfl⟩

/-- C8: when the caller specifies an algorithm, the checkpoint loads
under it, but detection disagrees, the export proceeds with the detected
algorithm: the metadata records the detected one, and the warning is
printed exactly in verbose mode. -/
theorem specified_algorithm_override_spec (env : Env) (mp op a : String) (vb : Bool)
    (m : Model) (d : String) (md : Metadata)
    (hne : a.isEmpty = false)
    (hdet : detect_algorithm m = Except.ok d)
    (hdiff : strToUpper a ≠ d)
    (hload : (load_sb3_model env mp (some a) vb).1 = Except.ok m)
    (hok : (export_to_torchscript env mp op (some a) vb).1 = Except.ok md) :
    md.algorithm = d ∧
    (Event.stdoutMsg ("Warning: Specified algorithm " ++ a ++ " differs from detected " ++ d)
        ∈ (export_to_torchscript env mp op (some a) vb).2 ↔ vb = true) := by
  obtain ⟨m', hL, hfm, htr⟩ := export_ok hok
  have hmm : m' = m := Except.ok.inj (hL.symm.trans hload)
  subst hmm
  obtain ⟨d', os, as, pol, hd', hg, hc, hmd, htr2⟩ := export_from_model_ok hfm
  have hdd : d = d' := Except.ok.inj (hdet.symm.trans hd')
  subst hdd
  constructor
  · subst hmd
    rfl
  · constructor
    · intro hmem
      cases hvb : vb with
      | true => rfl
      | false =>
        subst hvb
        exfalso
        have hnil : stdoutOf (export_to_torchscript env mp op (some a) false).2 = [] := by
          rw [htr, htr2]
          simp only [stdoutOf_append, load_stdout_false, stdoutOf_warnSeg_false,
            stdoutOf_dimsPrints_false, (create_trace_proj _ _ _ _ hc).2.2.2.2 rfl,
            stdoutOf_traceTail_false, stdoutOf_vPrints]
          simp [stdoutOf]
        have hmem' := mem_stdoutOf hmem
        rw [hnil] at hmem'
        exact absurd hmem' (by simp)
    · intro hvb
      subst hvb
      rw [htr, htr2]
      have hw : warnSeg (some a) d true
          = [Event.stdoutMsg ("Warning: Specified algorithm " ++ a
              ++ " differs from detected " ++ d)] := by
        rw [warnSeg]
        simp [vPrints, optStrTruthy, hne, bne_iff_ne.mpr hdiff]
      simp [hw]

/-- Witness for C8: specifying TD3 while the loaded model's class name
detects as SAC yields metadata recording SAC and a printed warning in
verbose mode. -/
theorem specified_algorithm_override_spec_witness :
    mdSacLike.algorithm = "SAC" ∧
    Event.stdoutMsg ("Warning: Specified algorithm " ++ "TD3"
        ++ " differs from detected " ++ "SAC")
      ∈ (export_to_torchscript envSacLike "model.zip" "out.pt" (some "TD3") true).2 := by
  have h := specified_algorithm_override_spec envSacLike "model.zip" "out.pt" "TD3" true
    mSacLike "SAC" mdSacLike rfl rfl (by decide) rfl rfl
  exact ⟨h.1, h.2.mpr rfl⟩

/-! ## CLI lemmas -/

theorem export_stdout_false (env : Env) (mp op : String) (algo : Option String)
    (md : Metadata)
    (h : (export_to_torchscript env mp op algo false).1 = Except.ok md) :
    stdoutOf (export_to_torchscript env mp op algo false).2 = [] := by
  obtain ⟨m, hL, hfm, htr⟩ := export_ok h
  obtain ⟨d, os, as, pol, hd, hg, hc, hmd, htr2⟩ := export_from_model_ok hfm
  rw [htr, htr2]
  simp only [stdoutOf_append, load_stdout_false, stdoutOf_warnSeg_false,
    stdoutOf_dimsPrints_false, (create_trace_proj _ _ _ _ hc).2.2.2.2 rfl,
    stdoutOf_traceTail_false, stdoutOf_vPrints]
  simp [stdoutOf]

theorem cliStdoutOf_append (a b : List CliEvent) :
    cliStdoutOf (a ++ b) = cliStdoutOf a ++ cliStdoutOf b :=
  List.filterMap_append a b _

theorem cliStdoutOf_map_ex (tr : List Event) :
    cliStdoutOf (tr.map CliEvent.ex) = stdoutOf tr := by
  induction tr with
  | nil => rfl
  | cons e t ih =>
    cases e <;> simpa [cliStdoutOf, stdoutOf, List.filterMap_cons] using ih

/-- C10: the CLI exits with status 1 printing an error line to stderr
when the input path does not exist or an exception escapes the export;
it exits 0 on success, printing the metadata as a single JSON line to
stdout exactly when `--verbose` is not given; the output's parent
directory is created (with parents) before the export runs. -/
theorem cli_behavior_spec (env : Env) (args : Args) (ex : Bool) :
    (ex = false → main_run env args ex =
      (1, [CliEvent.errLine ("Error: Input file not found: " ++ args.inputPath)])) ∧
    (ex = true →
      (main_run env args ex).2.head? = some (CliEvent.mkdirP (parentDir args.outputPath))) ∧
    (∀ e, ex = true →
      (export_to_torchscript env args.inputPath args.outputPath args.algorithm
          args.verbose).1 = Except.error e →
      (main_run env args ex).1 = 1 ∧
        CliEvent.errLine ("Error: " ++ e) ∈ (main_run env args ex).2) ∧
    (∀ md, ex = true →
      (export_to_torchscript env args.inputPath args.outputPath args.algorithm
          args.verbose).1 = Except.ok md →
      (main_run env args ex).1 = 0 ∧
        (args.verbose = false → cliStdoutOf (main_run env args ex).2 = [jsonDump md])) := by
  refine ⟨?_, ?_, ?_, ?_⟩
  · rintro rfl
    rfl
  · rintro rfl
    rw [main_run]
    cases hR : (export_to_torchscript env args.inputPath args.outputPath args.algorithm
        args.verbose).1 with
    | ok md => simp [hR]
    | error e => simp [hR]
  · rintro e rfl hE
    constructor
    · rw [main_run]
      simp [hE]
    · rw [main_run]
      simp [hE]
  · rintro md rfl hok
    constructor
    · rw [main_run]
      simp [hok]
    · intro hv
      have hok' := hok
      rw [hv] at hok'
      have hnil := export_stdout_false env args.inputPath args.outputPath args.algorithm md hok'
      rw [main_run]
      rw [hv]
      simp only [hok', Bool.not_true, Bool.not_false, if_true]
      simp only [Bool.false_eq_true, if_false]
      rw [cliStdoutOf_append, cliStdoutOf_append, cliStdoutOf_map_ex, hnil]
      rfl

/-- Witness for C10: the concrete non-verbose SAC run exits 0 and prints
exactly the metadata JSON line to stdout. -/
theorem cli_behavior_spec_witness :
    (main_run envSAC argsSAC true).1 = 0 ∧
    cliStdoutOf (main_run envSAC argsSAC true).2 = [jsonDump mdSAC] := by
  have h := (cli_behavior_spec envSAC argsSAC true).2.2.2 mdSAC rfl rfl
  exact ⟨h.1, h.2 rfl⟩
